import Mathlib

/-!
Verification of the FlashLearn study-session engine and progress logic.

The study-session queue engine lives in the `StudyModeScreen` React component.
Its state is five `useState` cells (`currentIndex`, `isFlipped`, `studyCards`,
`reviewQueue`, `completedCards`).  Event handlers read the render snapshot of
that state and queue updates via the `setX` calls; React applies the queued
updates in order at the end of the handler, functional updates receiving the
accumulated value and plain updates overwriting it.  The embedding below
models each handler as a function from the snapshot state to the settled
post-handler state, applying the queued updates with exactly that semantics
(in particular, reads inside `nextCard` see the stale snapshot values, and a
plain `setReviewQueue([])` overwrites an earlier queued functional append).

The progress/streak logic lives in `updateStudyProgress` and
`syncUserProgress` in `src/utils/supabase/operations.ts`.  JavaScript
`Date.toDateString()` equality is modelled as equality of floored calendar-day
numbers at a fixed timezone offset, and `Date.now() - 86400000` as literal
subtraction of 86 400 000 ms.
-/

namespace FlashLearn

/-- A flashcard as declared in the component (`{id, front, back, mastered}`). -/
structure Flashcard where
  id : String
  front : String
  back : String
  mastered : Bool
deriving DecidableEq, Repr

/-- The five `useState` cells of `StudyModeScreen`. -/
structure SessionState where
  currentIndex : Nat
  isFlipped : Bool
  studyCards : List Flashcard
  reviewQueue : List Flashcard
  completedCards : List Flashcard
deriving DecidableEq, Repr

/-- Initialization effect: `studyCards = cards.filter(!mastered)`,
`completedCards = cards.filter(mastered)`, with the `useState` initial values
`currentIndex = 0`, `isFlipped = false`, `reviewQueue = []`. -/
def initSession (cards : List Flashcard) : SessionState :=
  { currentIndex := 0
    isFlipped := false
    studyCards := cards.filter (fun c => !c.mastered)
    reviewQueue := []
    completedCards := cards.filter (fun c => c.mastered) }

/-- `const currentCard = studyCards[currentIndex]` — `none` models the
JavaScript `undefined` read out of bounds. -/
def currentCard (s : SessionState) : Option Flashcard :=
  s.studyCards[s.currentIndex]?

/-- The per-card lookup `completedCards.find(c => c.id === card.id) || card`
used by both completion merges. -/
def lookupCompleted (completed : List Flashcard) (card : Flashcard) :
    Flashcard :=
  match completed.find? (fun c => c.id == card.id) with
  | some comp => comp
  | none => card

/-- The completion merge in `nextCard`:
`cards.map(card => completedCards.find(c => c.id === card.id) || card)`. -/
def completeMerge (cards completed : List Flashcard) : List Flashcard :=
  cards.map (lookupCompleted completed)

/-- The completion merge in `handleKnown`, which special-cases the current
card (whose queued append to `completedCards` is not yet visible in the
snapshot). -/
def knownMerge (cards : List Flashcard) (cur updated : Flashcard)
    (completed : List Flashcard) : List Flashcard :=
  cards.map fun card =>
    if card.id == cur.id then updated
    else lookupCompleted completed card

/-- `handleKnown`, settled state.  The handler reads the snapshot `s`
throughout: the early-completion test and `nextCard`'s branches all use the
snapshot values of `studyCards`, `reviewQueue` and `currentIndex`. -/
def handleKnown (s : SessionState) : SessionState :=
  match currentCard s with
  | none => s
  | some c =>
    let updated : Flashcard := { c with mastered := true }
    if s.studyCards.length ≤ s.currentIndex + 1 ∧ s.reviewQueue.length = 0 then
      { s with completedCards := s.completedCards ++ [updated], isFlipped := false }
    else if s.currentIndex + 1 < s.studyCards.length then
      { s with completedCards := s.completedCards ++ [updated]
               isFlipped := false
               currentIndex := s.currentIndex + 1 }
    else
      { s with completedCards := s.completedCards ++ [updated]
               isFlipped := false
               studyCards := s.reviewQueue
               reviewQueue := []
               currentIndex := 0 }

/-- The `onComplete` payload produced by a `handleKnown` call, if any. -/
def handleKnownEmit (cards : List Flashcard) (s : SessionState) :
    Option (List Flashcard) :=
  match currentCard s with
  | none => none
  | some c =>
    if s.studyCards.length ≤ s.currentIndex + 1 ∧ s.reviewQueue.length = 0 then
      some (knownMerge cards c { c with mastered := true } s.completedCards)
    else none

/-- `handleReview`, settled state.  `setReviewQueue(prev => [...prev, card])`
is queued first; `nextCard` then reads the stale snapshot `reviewQueue`, and
in its middle branch the plain `setReviewQueue([])` overwrites the queued
append while `setStudyCards(reviewQueue)` installs the stale queue. -/
def handleReview (s : SessionState) : SessionState :=
  match currentCard s with
  | none => s
  | some c =>
    if s.currentIndex + 1 < s.studyCards.length then
      { s with reviewQueue := s.reviewQueue ++ [c]
               isFlipped := false
               currentIndex := s.currentIndex + 1 }
    else if 0 < s.reviewQueue.length then
      { s with isFlipped := false
               studyCards := s.reviewQueue
               reviewQueue := []
               currentIndex := 0 }
    else
      { s with reviewQueue := s.reviewQueue ++ [c], isFlipped := false }

/-- The `onComplete` payload produced by a `handleReview` call, if any
(the completion branch of `nextCard`). -/
def handleReviewEmit (cards : List Flashcard) (s : SessionState) :
    Option (List Flashcard) :=
  match currentCard s with
  | none => none
  | some _ =>
    if s.currentIndex + 1 < s.studyCards.length then none
    else if 0 < s.reviewQueue.length then none
    else some (completeMerge cards s.completedCards)

/-- `handleCardFlip` restricted to session state: toggles `isFlipped`
(timer bookkeeping is modelled separately in `TimerState`). -/
def handleCardFlip (s : SessionState) : SessionState :=
  { s with isFlipped := !s.isFlipped }

/-- `handleRestart`: rebuilds every cell from the original `cards` prop,
which no handler ever mutates (handlers only create copies of cards). -/
def handleRestart (cards : List Flashcard) (_s : SessionState) : SessionState :=
  { currentIndex := 0
    isFlipped := false
    studyCards := cards.filter (fun c => !c.mastered)
    reviewQueue := []
    completedCards := cards.filter (fun c => c.mastered) }

/-- User actions available during a session. -/
inductive SessionOp where
  | flip
  | known
  | review
deriving DecidableEq, Repr

/-- One user action applied to the settled state. -/
def applyOp (op : SessionOp) (s : SessionState) : SessionState :=
  match op with
  | .flip => handleCardFlip s
  | .known => handleKnown s
  | .review => handleReview s

/-- A sequence of user actions applied in order. -/
def runOps (ops : List SessionOp) (s : SessionState) : SessionState :=
  ops.foldl (fun s op => applyOp op s) s

/-- The pass-advance step of `markReview` as the specification words it
(§4.1): the deferred card is appended to the review queue first, and the
three-branch advance rule is then applied to the resulting state, so the
just-appended queue is the one consulted and installed. -/
def specMarkReview (s : SessionState) : SessionState :=
  match currentCard s with
  | none => s
  | some c =>
    let s1 := { s with reviewQueue := s.reviewQueue ++ [c] }
    if s1.currentIndex + 1 < s1.studyCards.length then
      { s1 with currentIndex := s1.currentIndex + 1, isFlipped := false }
    else if 0 < s1.reviewQueue.length then
      { s1 with studyCards := s1.reviewQueue
                reviewQueue := []
                currentIndex := 0
                isFlipped := false }
    else
      { s1 with isFlipped := false }

/-! ### Progress and streak logic (`src/utils/supabase/operations.ts`) -/

/-- Milliseconds per day, the constant `86400000` in `updateStudyProgress`. -/
def MS_PER_DAY : Int := 86400000

/-- The `user_progress` row (`UserProgress` in `client.ts`): integer counters
with an optional `last_study_date` timestamp, modelled in epoch milliseconds. -/
structure UserProgress where
  total_cards : Int
  mastered_cards : Int
  current_streak : Int
  longest_streak : Int
  last_study_date : Option Int
deriving DecidableEq, Repr

/-- Calendar day of an epoch-millisecond instant at a fixed timezone offset
`off`: the floor of `(t + off) / 86400000`.  Two instants have equal JavaScript
`toDateString()` exactly when they fall on the same local calendar day, i.e.
when their `calendarDay` values agree (fixed-offset timezone model). -/
def calendarDay (off t : Int) : Int := (t + off).fdiv MS_PER_DAY

/-- The streak branch of `updateStudyProgress`: returns the pair
`(newStreak, longestStreak)` exactly as the source computes it.  `longestStreak`
starts as `currentProgress?.longest_streak || 0` and is reassigned only inside
the studied-yesterday branch. -/
def streakUpdate (off : Int) (currentProgress : Option UserProgress)
    (nowMs : Int) : Int × Int :=
  let longestStreak := match currentProgress with
    | some p => p.longest_streak
    | none => 0
  match currentProgress with
  | none => (1, longestStreak)
  | some p =>
    match p.last_study_date with
    | none => (1, longestStreak)
    | some last =>
      if calendarDay off last = calendarDay off nowMs then
        (p.current_streak, longestStreak)
      else if calendarDay off last = calendarDay off (nowMs - 86400000) then
        let newStreak := p.current_streak + 1
        (newStreak, if longestStreak < newStreak then newStreak else longestStreak)
      else
        (1, longestStreak)

/-- `updateStudyProgress(masteredCount)`: the row written by the upsert.
Columns not in the upsert (`total_cards`) keep their previous value (database
default `0` on fresh insert); `mastered_cards` accumulates, the streak pair
comes from `streakUpdate`, and `last_study_date` is set to the study instant. -/
def updateStudyProgress (off masteredCount : Int)
    (currentProgress : Option UserProgress) (nowMs : Int) : UserProgress :=
  let sp := streakUpdate off currentProgress nowMs
  { total_cards := match currentProgress with
      | some p => p.total_cards
      | none => 0
    mastered_cards := (match currentProgress with
      | some p => p.mastered_cards
      | none => 0) + masteredCount
    current_streak := sp.1
    longest_streak := sp.2
    last_study_date := some nowMs }

/-- Error condition the specification asks the streak update to raise on a
backdated study instant. -/
inductive StreakError where
  | AmbiguousStreakInput
deriving DecidableEq, Repr

/-- The streak update as the specification words it (§4.3, §7): identical
cases for same-day, yesterday and gap, but a `last_study_date` on a calendar
day strictly after today raises `AmbiguousStreakInput` instead of producing a
value.  This definition follows the spec, not the source; it exists to be
compared with `updateStudyProgress`. -/
def specNextProgress (off masteredCount : Int)
    (currentProgress : Option UserProgress) (nowMs : Int) :
    Except StreakError UserProgress :=
  match currentProgress with
  | none => .ok (updateStudyProgress off masteredCount none nowMs)
  | some p =>
    match p.last_study_date with
    | none => .ok (updateStudyProgress off masteredCount (some p) nowMs)
    | some last =>
      if calendarDay off nowMs < calendarDay off last then
        .error .AmbiguousStreakInput
      else
        .ok (updateStudyProgress off masteredCount (some p) nowMs)

/-- A row of the `decks` table as selected by `syncUserProgress`
(`id, card_count, mastered_count`); the counters are nullable columns
defaulted through `|| 0`. -/
structure DeckRow where
  id : String
  card_count : Option Int
  mastered_count : Option Int
deriving DecidableEq, Repr

/-- `syncUserProgress`: sums the per-deck counters with
`reduce((sum, d) => sum + (d.card_count || 0), 0)` and overwrites only
`total_cards` and `mastered_cards` on the stored row. -/
def syncUserProgress (decks : List DeckRow) (prog : UserProgress) :
    UserProgress :=
  let totalCards := decks.foldl (fun sum d => sum + d.card_count.getD 0) 0
  let masteredCards := decks.foldl (fun sum d => sum + d.mastered_count.getD 0) 0
  { prog with total_cards := totalCards, mastered_cards := masteredCards }

/-! ### Auto-flip timer (`StudyModeScreen` effect on `[currentIndex, isFlipped]`) -/

/-- `AUTO_FLIP_DELAY = 5000` ms. -/
def AUTO_FLIP_DELAY : Nat := 5000

/-- Timer-relevant state: the flip flag and the pending `setTimeout` deadline
(`none` when no timer is armed). -/
structure TimerState where
  isFlipped : Bool
  deadline : Option Nat
deriving DecidableEq, Repr

/-- The auto-flip effect, run at instant `now` whenever `currentIndex` or
`isFlipped` changed: clears any existing timer, then arms a fresh one for
`now + AUTO_FLIP_DELAY` only if a current card exists and it is not flipped. -/
def runAutoFlipEffect (hasCard : Bool) (now : Nat) (s : TimerState) :
    TimerState :=
  if hasCard ∧ s.isFlipped = false then
    { s with deadline := some (now + AUTO_FLIP_DELAY) }
  else
    { s with deadline := none }

/-- `handleCardFlip` at instant `now`: clears the pending timer, toggles
`isFlipped`, after which the effect re-runs (and does not arm, since the card
is now flipped when it was unflipped before). -/
def flipTimer (hasCard : Bool) (now : Nat) (s : TimerState) : TimerState :=
  runAutoFlipEffect hasCard now { isFlipped := !s.isFlipped, deadline := none }

/-- The armed timeout firing at its deadline: `setIsFlipped(true)`, after
which the effect re-runs at the firing instant with the already-consumed
timeout cleared.  With no deadline armed, nothing can fire. -/
def fireTimer (hasCard : Bool) (s : TimerState) : TimerState :=
  match s.deadline with
  | none => s
  | some d => runAutoFlipEffect hasCard d { isFlipped := true, deadline := none }

/-- Invariant: every card in `completedCards` carries `mastered = true`. -/
def CompletedMastered (s : SessionState) : Prop :=
  ∀ c ∈ s.completedCards, c.mastered = true

/-! ## Theorems -/

/-- Subtracting one day of milliseconds moves the calendar day down by exactly
one, at any fixed timezone offset. -/
theorem calendarDay_sub_msPerDay (off t : Int) :
    calendarDay off (t - 86400000) = calendarDay off t - 1 := by
  unfold calendarDay MS_PER_DAY
  rw [Int.fdiv_eq_ediv _ (by norm_num), Int.fdiv_eq_ediv _ (by norm_num)]
  have h : t - 86400000 + off = t + off + (-1) * 86400000 := by ring
  rw [h, Int.add_mul_ediv_right _ _ (by norm_num)]
  ring

/-- C6: recomputing the aggregate stats twice from the same per-deck counters
yields identical `total_cards` and `mastered_cards` — `syncUserProgress` is
idempotent on those fields. -/
theorem claim6_sync_idempotent (decks : List DeckRow) (prog : UserProgress) :
    (syncUserProgress decks (syncUserProgress decks prog)).total_cards
      = (syncUserProgress decks prog).total_cards ∧
    (syncUserProgress decks (syncUserProgress decks prog)).mastered_cards
      = (syncUserProgress decks prog).mastered_cards :=
  ⟨rfl, rfl⟩

/-- C8: after any sequence of flip/markKnown/markReview actions, `restart()`
returns exactly the state `start()` produces on the original card list with
its pre-session mastered flags (the `cards` prop, which no handler mutates). -/
theorem claim8_restart_restores_start (cards : List Flashcard)
    (ops : List SessionOp) :
    handleRestart cards (runOps ops (initSession cards)) = initSession cards :=
  rfl

/-- C9: arming the reveal timer for a current, unflipped card sets a deadline
exactly 5000 ms out; a manual flip at t = now + 1000 (before the deadline)
clears the timer, and no amount of subsequent timer-fire activity changes the
state or flips the card again; when the armed timer does fire it flips the
card once and leaves no timer armed (no re-arm). -/
theorem claim9_timer_cancel_and_single_shot (now n : Nat) :
    (runAutoFlipEffect true now ⟨false, none⟩).deadline = some (now + 5000) ∧
    (flipTimer true (now + 1000)
        (runAutoFlipEffect true now ⟨false, none⟩)).deadline = none ∧
    (fireTimer true)^[n]
        (flipTimer true (now + 1000) (runAutoFlipEffect true now ⟨false, none⟩))
      = flipTimer true (now + 1000) (runAutoFlipEffect true now ⟨false, none⟩) ∧
    (fireTimer true (runAutoFlipEffect true now ⟨false, none⟩)).isFlipped = true ∧
    (fireTimer true (runAutoFlipEffect true now ⟨false, none⟩)).deadline = none := by
  have harm : runAutoFlipEffect true now ⟨false, none⟩
      = ⟨false, some (now + AUTO_FLIP_DELAY)⟩ := by
    simp [runAutoFlipEffect]
  have hflip : flipTimer true (now + 1000) (runAutoFlipEffect true now ⟨false, none⟩)
      = ⟨true, none⟩ := by
    rw [harm]
    simp [flipTimer, runAutoFlipEffect]
  have hfix : fireTimer true (⟨true, none⟩ : TimerState) = ⟨true, none⟩ := rfl
  refine ⟨by rw [harm]; rfl, by rw [hflip], ?_, ?_, ?_⟩
  · rw [hflip]
    exact Function.iterate_fixed hfix n
  · rw [harm]
    simp [fireTimer, runAutoFlipEffect]
  · rw [harm]
    simp [fireTimer, runAutoFlipEffect]

/-- C2 counterexample: for a previous record with no `last_study_date` and
`longest_streak = 0`, the update yields `current_streak = 1` but leaves
`longest_streak = 0`, which is not `max(prev.longest_streak, current_streak)`
— the code reassigns `longestStreak` only in the studied-yesterday branch. -/
theorem claim2_counterexample_longest_not_max :
    (updateStudyProgress 0 0 (some ⟨0, 0, 0, 0, none⟩) 0).current_streak = 1 ∧
    (updateStudyProgress 0 0 (some ⟨0, 0, 0, 0, none⟩) 0).longest_streak ≠
      max (UserProgress.mk 0 0 0 0 none).longest_streak
        (updateStudyProgress 0 0 (some ⟨0, 0, 0, 0, none⟩) 0).current_streak := by
  decide

/-- C2 (amended): the streak update computes `current_streak` exactly as
claimed (absent date → 1; same day → unchanged; exactly one day before → +1;
larger gap → 1) and sets `last_study_date` to the study instant, but
`longest_streak = max(prev.longest_streak, current_streak)` only in the
studied-yesterday branch; in every other branch `longest_streak` keeps its
previous value.  The literal scenarios hold as stated. -/
theorem claim2_streak_update_cases (off mc nowMs : Int) (p : UserProgress) :
    (updateStudyProgress off mc (some p) nowMs).last_study_date = some nowMs ∧
    (p.last_study_date = none →
      (updateStudyProgress off mc (some p) nowMs).current_streak = 1 ∧
      (updateStudyProgress off mc (some p) nowMs).longest_streak
        = p.longest_streak) ∧
    (∀ last, p.last_study_date = some last →
      (calendarDay off last = calendarDay off nowMs →
        (updateStudyProgress off mc (some p) nowMs).current_streak
          = p.current_streak ∧
        (updateStudyProgress off mc (some p) nowMs).longest_streak
          = p.longest_streak) ∧
      (calendarDay off last = calendarDay off nowMs - 1 →
        (updateStudyProgress off mc (some p) nowMs).current_streak
          = p.current_streak + 1 ∧
        (updateStudyProgress off mc (some p) nowMs).longest_streak
          = max p.longest_streak (p.current_streak + 1)) ∧
      (calendarDay off last ≠ calendarDay off nowMs →
        calendarDay off last ≠ calendarDay off nowMs - 1 →
        (updateStudyProgress off mc (some p) nowMs).current_streak = 1 ∧
        (updateStudyProgress off mc (some p) nowMs).longest_streak
          = p.longest_streak)) := by
  obtain ⟨tc, mcd, cs, ls, lsd⟩ := p
  refine ⟨rfl, ?_, ?_⟩
  · intro h
    simp only at h
    subst h
    exact ⟨rfl, rfl⟩
  · intro last hlast
    simp only at hlast
    subst hlast
    simp only [updateStudyProgress, streakUpdate, calendarDay_sub_msPerDay]
    refine ⟨?_, ?_, ?_⟩
    · intro heq
      rw [if_pos heq]
      exact ⟨rfl, rfl⟩
    · intro heq
      have hne : calendarDay off last ≠ calendarDay off nowMs := by
        rw [heq]; omega
      rw [if_neg hne, if_pos heq]
      constructor
      · rfl
      · simp only
        split_ifs with h <;> omega
    · intro h1 h2
      rw [if_neg h1, if_neg h2]
      exact ⟨rfl, rfl⟩

/-- C2 witness: the literal scenarios of the claim, at UTC offset 0 —
2024-01-10 then 2024-01-11 increments 3 to 4; studying again on 2024-01-11
stays 4; a study on 2024-01-14 after a 3-day gap resets to 1. -/
theorem claim2_witness_literal_scenario :
    (updateStudyProgress 0 0 (some ⟨10, 2, 3, 5, some 1704844800000⟩)
      1704931200000).current_streak = 3 + 1 ∧
    (updateStudyProgress 0 0 (some ⟨10, 2, 4, 5, some 1704931200000⟩)
      1704931200000).current_streak = 4 ∧
    (updateStudyProgress 0 0 (some ⟨10, 2, 4, 5, some 1704931200000⟩)
      1705190400000).current_streak = 1 := by
  refine ⟨?_, ?_, ?_⟩
  · exact (((claim2_streak_update_cases 0 0 1704931200000
      ⟨10, 2, 3, 5, some 1704844800000⟩).2.2 1704844800000 rfl).2.1
      (by decide)).1
  · exact (((claim2_streak_update_cases 0 0 1704931200000
      ⟨10, 2, 4, 5, some 1704931200000⟩).2.2 1704931200000 rfl).1 rfl).1
  · exact (((claim2_streak_update_cases 0 0 1705190400000
      ⟨10, 2, 4, 5, some 1704931200000⟩).2.2 1704931200000 rfl).2.2
      (by decide) (by decide)).1

/-- C3 counterexample: starting from a fresh record (`current_streak = 0`,
`longest_streak = 0`, last study on day 0) a study on day 5 produces
`current_streak = 1 > longest_streak = 0`, violating the claimed invariant. -/
theorem claim3_counterexample_invariant_broken :
    ¬ ((updateStudyProgress 0 0 (some ⟨0, 0, 0, 0, some 0⟩)
          432000000).current_streak
        ≤ (updateStudyProgress 0 0 (some ⟨0, 0, 0, 0, some 0⟩)
          432000000).longest_streak) := by
  decide

/-- C3 (amended): `current_streak ≤ longest_streak` is preserved by the
streak update for every previous record that already satisfies it and has
`longest_streak ≥ 1`; it fails on fresh records with `longest_streak = 0`
(and after any invocation that produced one), because the code never lifts
`longest_streak` to a freshly started streak of 1. -/
theorem claim3_streak_invariant_preserved (off mc nowMs : Int)
    (p : UserProgress) (h1 : p.current_streak ≤ p.longest_streak)
    (h2 : 1 ≤ p.longest_streak) :
    (updateStudyProgress off mc (some p) nowMs).current_streak ≤
      (updateStudyProgress off mc (some p) nowMs).longest_streak := by
  obtain ⟨tc, mcd, cs, ls, lsd⟩ := p
  simp only at h1 h2
  cases lsd with
  | none => simpa [updateStudyProgress, streakUpdate] using h2
  | some last =>
    simp only [updateStudyProgress, streakUpdate]
    split_ifs <;> simp only <;> omega

/-- C3 witness: a record with streak 1 and longest 2, studying the day after
its last study, keeps the invariant. -/
theorem claim3_witness :
    (updateStudyProgress 0 0 (some ⟨6, 3, 1, 2, some 86400000⟩)
        172800000).current_streak ≤
      (updateStudyProgress 0 0 (some ⟨6, 3, 1, 2, some 86400000⟩)
        172800000).longest_streak :=
  claim3_streak_invariant_preserved 0 0 172800000 ⟨6, 3, 1, 2, some 86400000⟩
    (by decide) (by decide)

/-- C5 counterexample: with `last_study_date` on day 10 and a study instant on
day 0 (backdated clock), the code raises nothing and produces the guessed
value `current_streak = 1`, whereas the specified behavior
(`specNextProgress`) raises `AmbiguousStreakInput`. -/
theorem claim5_counterexample_no_error_raised :
    (updateStudyProgress 0 0 (some ⟨0, 0, 0, 0, some 864000000⟩)
      0).current_streak = 1 ∧
    specNextProgress 0 0 (some ⟨0, 0, 0, 0, some 864000000⟩) 0
      = Except.error StreakError.AmbiguousStreakInput :=
  ⟨by decide, rfl⟩

/-- C5 (amended): for every previous record whose last study day is strictly
after the study instant's day, the code raises no condition at all: it falls
through both date comparisons and silently resets `current_streak` to 1,
exactly as in the gap case.  (On all well-formed inputs the computation is a
total function.) -/
theorem claim5_backdated_study_resets_to_one (off mc nowMs last : Int)
    (p : UserProgress) (hp : p.last_study_date = some last)
    (h : calendarDay off nowMs < calendarDay off last) :
    (updateStudyProgress off mc (some p) nowMs).current_streak = 1 := by
  obtain ⟨tc, mcd, cs, ls, lsd⟩ := p
  simp only at hp
  subst hp
  have h1 : calendarDay off last ≠ calendarDay off nowMs := by omega
  have h2 : calendarDay off last ≠ calendarDay off (nowMs - 86400000) := by
    rw [calendarDay_sub_msPerDay]; omega
  simp only [updateStudyProgress, streakUpdate]
  rw [if_neg h1, if_neg h2]

/-- C5 witness: last study on day 20, study instant on day 0 — the code
returns streak 1. -/
theorem claim5_witness :
    (updateStudyProgress 0 0 (some ⟨0, 0, 2, 2, some 1728000000⟩)
      0).current_streak = 1 :=
  claim5_backdated_study_resets_to_one 0 0 0 1728000000
    ⟨0, 0, 2, 2, some 1728000000⟩ rfl (by decide)

/-- Any card the per-card lookup returns is either drawn from a list of
mastered completed cards or matches one of them by id — in both cases
mastered — or is the unchanged input card. -/
theorem lookupCompleted_mastered (completed : List Flashcard)
    (hall : ∀ c ∈ completed, c.mastered = true) (card : Flashcard)
    (hsrc : card.mastered = true ∨ ∃ c ∈ completed, c.id = card.id) :
    (lookupCompleted completed card).mastered = true := by
  unfold lookupCompleted
  rcases hfind : completed.find? (fun c => c.id == card.id) with _ | comp
  · rw [hfind]
    rcases hsrc with hm | ⟨c, hc, hid⟩
    · exact hm
    · exfalso
      have hnone := List.find?_eq_none.mp hfind c hc
      simp [hid] at hnone
  · rw [hfind]
    exact hall comp (List.mem_of_find?_eq_some hfind)

/-- C1: code-bug exhibit.  Deck of two unmastered cards `a`, `b`: after
`markKnown()` resolves `a`, the current card is `b`; `markReview()` on `b`
(last position of the pass, empty review queue snapshot) immediately emits the
final card list — with `b` still unmastered — because `nextCard` reads the
stale `reviewQueue` closure that does not yet contain `b`.  The session
completes, so the deferred card never reappears as the current card,
contradicting the claim. -/
theorem claim1_deferred_last_card_dropped :
    currentCard (handleKnown (initSession
        [⟨"a", "qa", "ba", false⟩, ⟨"b", "qb", "bb", false⟩]))
      = some ⟨"b", "qb", "bb", false⟩ ∧
    handleReviewEmit [⟨"a", "qa", "ba", false⟩, ⟨"b", "qb", "bb", false⟩]
        (handleKnown (initSession
          [⟨"a", "qa", "ba", false⟩, ⟨"b", "qb", "bb", false⟩]))
      = some [⟨"a", "qa", "ba", true⟩, ⟨"b", "qb", "bb", false⟩] := by
  decide

/-- C4 counterexample: single unmastered card `a`, `markReview()` on it.  The
claimed rule (`specMarkReview`, which consults the review queue after the
deferred card is appended) starts a new pass with `primaryQueue = [a]`; the
code instead hits the completion branch and emits, and its post-state differs
from the rule's. -/
theorem claim4_counterexample_stale_review_queue :
    handleReview (initSession [⟨"a", "qa", "ba", false⟩])
      ≠ specMarkReview (initSession [⟨"a", "qa", "ba", false⟩]) ∧
    handleReviewEmit [⟨"a", "qa", "ba", false⟩]
        (initSession [⟨"a", "qa", "ba", false⟩])
      = some [⟨"a", "qa", "ba", false⟩] ∧
    (specMarkReview (initSession [⟨"a", "qa", "ba", false⟩])).studyCards
      = [⟨"a", "qa", "ba", false⟩] ∧
    (specMarkReview (initSession [⟨"a", "qa", "ba", false⟩])).reviewQueue
      = [] := by
  decide

/-- C4 (amended): after `markKnown()` the three-branch pass-advance rule is
applied exactly as claimed, and after `markReview()` it is applied with
`reviewQueue` evaluated *before* the deferred card is appended: mid-pass the
cursor advances and the card is appended; at the end of a pass with a
non-empty prior review queue, the new pass uses that prior queue and the
just-deferred card is dropped; at the end of a pass with an empty prior review
queue, the session completes and emits with the deferred card unmastered. -/
theorem claim4_pass_advance_rule (cards : List Flashcard) (s : SessionState)
    (c : Flashcard) (h : currentCard s = some c) :
    (s.currentIndex + 1 < s.studyCards.length →
      handleKnown s = { s with
          completedCards := s.completedCards ++ [{ c with mastered := true }]
          isFlipped := false
          currentIndex := s.currentIndex + 1 } ∧
      handleReview s = { s with
          reviewQueue := s.reviewQueue ++ [c]
          isFlipped := false
          currentIndex := s.currentIndex + 1 } ∧
      handleKnownEmit cards s = none ∧ handleReviewEmit cards s = none) ∧
    (s.studyCards.length ≤ s.currentIndex + 1 → 0 < s.reviewQueue.length →
      handleKnown s = { s with
          completedCards := s.completedCards ++ [{ c with mastered := true }]
          isFlipped := false
          studyCards := s.reviewQueue
          reviewQueue := []
          currentIndex := 0 } ∧
      handleReview s = { s with
          isFlipped := false
          studyCards := s.reviewQueue
          reviewQueue := []
          currentIndex := 0 } ∧
      handleKnownEmit cards s = none ∧ handleReviewEmit cards s = none) ∧
    (s.studyCards.length ≤ s.currentIndex + 1 → s.reviewQueue.length = 0 →
      handleKnown s = { s with
          completedCards := s.completedCards ++ [{ c with mastered := true }]
          isFlipped := false } ∧
      handleKnownEmit cards s
        = some (knownMerge cards c { c with mastered := true }
            s.completedCards) ∧
      handleReview s = { s with
          reviewQueue := s.reviewQueue ++ [c]
          isFlipped := false } ∧
      handleReviewEmit cards s
        = some (completeMerge cards s.completedCards)) := by
  refine ⟨?_, ?_, ?_⟩
  · intro hlt
    have hnot : ¬ (s.studyCards.length ≤ s.currentIndex + 1
        ∧ s.reviewQueue.length = 0) := fun hc => by omega
    refine ⟨?_, ?_, ?_, ?_⟩
    · simp only [handleKnown, h]
      rw [if_neg hnot, if_pos hlt]
    · simp only [handleReview, h]
      rw [if_pos hlt]
    · simp only [handleKnownEmit, h]
      rw [if_neg hnot]
    · simp only [handleReviewEmit, h]
      rw [if_pos hlt]
  · intro hge hpos
    have hnot : ¬ (s.studyCards.length ≤ s.currentIndex + 1
        ∧ s.reviewQueue.length = 0) := fun hc => by omega
    have hnlt : ¬ s.currentIndex + 1 < s.studyCards.length := by omega
    refine ⟨?_, ?_, ?_, ?_⟩
    · simp only [handleKnown, h]
      rw [if_neg hnot, if_neg hnlt]
    · simp only [handleReview, h]
      rw [if_neg hnlt, if_pos hpos]
    · simp only [handleKnownEmit, h]
      rw [if_neg hnot]
    · simp only [handleReviewEmit, h]
      rw [if_neg hnlt, if_pos hpos]
  · intro hge hzero
    have hyes : s.studyCards.length ≤ s.currentIndex + 1
        ∧ s.reviewQueue.length = 0 := ⟨hge, hzero⟩
    have hnlt : ¬ s.currentIndex + 1 < s.studyCards.length := by omega
    have hnpos : ¬ 0 < s.reviewQueue.length := by omega
    refine ⟨?_, ?_, ?_, ?_⟩
    · simp only [handleKnown, h]
      rw [if_pos hyes]
    · simp only [handleKnownEmit, h]
      rw [if_pos hyes]
    · simp only [handleReview, h]
      rw [if_neg hnlt, if_neg hnpos]
    · simp only [handleReviewEmit, h]
      rw [if_neg hnlt, if_neg hnpos]

/-- C4 witness: the completion branch of the amended rule at a concrete
one-card session — `markReview()` leaves the card in the (now unreachable)
review queue and emits the unchanged card list. -/
theorem claim4_witness_completion_branch :
    handleReview (initSession [⟨"c", "qc", "bc", false⟩])
      = { initSession [⟨"c", "qc", "bc", false⟩] with
          reviewQueue := [⟨"c", "qc", "bc", false⟩]
          isFlipped := false } ∧
    handleReviewEmit [⟨"c", "qc", "bc", false⟩]
        (initSession [⟨"c", "qc", "bc", false⟩])
      = some (completeMerge [⟨"c", "qc", "bc", false⟩] []) := by
  have h := claim4_pass_advance_rule [⟨"c", "qc", "bc", false⟩]
    (initSession [⟨"c", "qc", "bc", false⟩]) ⟨"c", "qc", "bc", false⟩ rfl
  have h3 := h.2.2 (by decide) rfl
  exact ⟨h3.2.2.1, h3.2.2.2⟩

/-- C7: with the cursor in bounds or the queue empty, `currentCard()` yields
no card exactly when the primary queue is empty (the `EmptyQueue` failure,
surfacing as `undefined` in the source); on an empty queue `markKnown()`
leaves the state untouched and emits nothing (the `NoCurrentCard` failure,
an early `return`); on a non-empty queue `currentCard()` returns the card at
`primaryQueue[cursor]`. -/
theorem claim7_current_card_empty_queue (cards : List Flashcard)
    (s : SessionState)
    (hcur : s.currentIndex < s.studyCards.length ∨ s.studyCards = []) :
    (currentCard s = none ↔ s.studyCards = []) ∧
    (s.studyCards = [] → handleKnown s = s ∧ handleKnownEmit cards s = none) ∧
    (∀ h : s.currentIndex < s.studyCards.length,
      currentCard s = some (s.studyCards.get ⟨s.currentIndex, h⟩)) := by
  refine ⟨⟨?_, ?_⟩, ?_, ?_⟩
  · intro hnone
    rcases hcur with hlt | hemp
    · rw [currentCard, List.getElem?_eq_getElem hlt] at hnone
      exact absurd hnone (by simp)
    · exact hemp
  · intro hemp
    rw [currentCard, hemp]
    simp
  · intro hemp
    have hnone : currentCard s = none := by
      rw [currentCard, hemp]; simp
    constructor
    · simp only [handleKnown, hnone]
    · simp only [handleKnownEmit, hnone]
  · intro hlt
    rw [currentCard, List.getElem?_eq_getElem hlt]
    rfl

/-- C7 witness: a session started on an empty card list — no current card,
and `markKnown()` neither mutates the state nor emits. -/
theorem claim7_witness :
    currentCard (initSession []) = none
      ∧ handleKnown (initSession []) = initSession []
      ∧ handleKnownEmit [] (initSession []) = none := by
  have h := claim7_current_card_empty_queue [] (initSession []) (Or.inr rfl)
  exact ⟨h.1.mpr rfl, (h.2.1 rfl).1, (h.2.1 rfl).2⟩

/-- C10: mastery is monotone within a session.  Given the invariant that
every completed card is mastered (established by `start()` and preserved by
every operation below), no session operation un-masters a card:
`markKnown()` only appends mastered copies, `markReview()` re-queues the
current card with its flag unchanged, and in any emitted final list the
entry for every card that was mastered at session start, or whose id was
resolved into `completedCards`, still has `mastered = true`. -/
theorem claim10_mastery_monotone (cards : List Flashcard) (s : SessionState)
    (hInv : CompletedMastered s) :
    CompletedMastered (initSession cards) ∧
    CompletedMastered (handleKnown s) ∧
    CompletedMastered (handleReview s) ∧
    CompletedMastered (handleCardFlip s) ∧
    CompletedMastered (handleRestart cards s) ∧
    (∀ c ∈ (handleReview s).reviewQueue,
      c ∈ s.reviewQueue ∨ currentCard s = some c) ∧
    (∀ out, handleKnownEmit cards s = some out
        ∨ handleReviewEmit cards s = some out →
      out.length = cards.length ∧
      ∀ i, ∀ hi : i < cards.length, ∀ ho : i < out.length,
        (cards[i].mastered = true
          ∨ ∃ c ∈ s.completedCards, c.id = cards[i].id) →
        out[i].mastered = true) := by
  refine ⟨?_, ?_, ?_, ?_, ?_, ?_, ?_⟩
  · intro c hc
    exact (List.mem_filter.mp hc).2
  · intro c hc
    rcases hcc : currentCard s with _ | cur
    · simp only [handleKnown, hcc] at hc
      exact hInv c hc
    · simp only [handleKnown, hcc] at hc
      split_ifs at hc <;>
        (simp only [List.mem_append, List.mem_singleton] at hc ;
         rcases hc with hc | hc)
      exacts [hInv c hc, by rw [hc], hInv c hc, by rw [hc],
        hInv c hc, by rw [hc]]
  · intro c hc
    rcases hcc : currentCard s with _ | cur
    · simp only [handleReview, hcc] at hc
      exact hInv c hc
    · simp only [handleReview, hcc] at hc
      split_ifs at hc <;> exact hInv c hc
  · intro c hc
    exact hInv c hc
  · intro c hc
    exact (List.mem_filter.mp hc).2
  · intro c hc
    rcases hcc : currentCard s with _ | cur
    · simp only [handleReview, hcc] at hc
      exact Or.inl hc
    · simp only [handleReview, hcc] at hc
      split_ifs at hc
      · rcases List.mem_append.mp hc with hold | hnew
        · exact Or.inl hold
        · exact Or.inr (congrArg some (List.mem_singleton.mp hnew).symm)
      · exact absurd hc (List.not_mem_nil c)
      · rcases List.mem_append.mp hc with hold | hnew
        · exact Or.inl hold
        · exact Or.inr (congrArg some (List.mem_singleton.mp hnew).symm)
  · intro out hout
    rcases hout with hk | hr
    · rcases hcc : currentCard s with _ | cur
      · simp only [handleKnownEmit, hcc] at hk
        exact Option.noConfusion hk
      · simp only [handleKnownEmit, hcc] at hk
        split_ifs at hk
        obtain rfl := Option.some.inj hk
        constructor
        · simp [knownMerge]
        · intro i hi ho hsrc
          have hget : (knownMerge cards cur { cur with mastered := true }
                s.completedCards)[i]
              = if cards[i].id == cur.id then { cur with mastered := true }
                else lookupCompleted s.completedCards cards[i] := by
            simp [knownMerge]
          rw [hget]
          split_ifs with hid
          · rfl
          · exact lookupCompleted_mastered s.completedCards hInv cards[i] hsrc
    · rcases hcc : currentCard s with _ | cur
      · simp only [handleReviewEmit, hcc] at hr
        exact Option.noConfusion hr
      · simp only [handleReviewEmit, hcc] at hr
        split_ifs at hr
        obtain rfl := Option.some.inj hr
        constructor
        · simp [completeMerge]
        · intro i hi ho hsrc
          have hget : (completeMerge cards s.completedCards)[i]
              = lookupCompleted s.completedCards cards[i] := by
            simp [completeMerge]
          rw [hget]
          exact lookupCompleted_mastered s.completedCards hInv cards[i] hsrc

/-- C10 witness: a fresh session over one pre-mastered card establishes the
completed-cards-are-mastered invariant. -/
theorem claim10_witness :
    CompletedMastered (initSession [⟨"m", "qm", "bm", true⟩]) :=
  (claim10_mastery_monotone [⟨"m", "qm", "bm", true⟩] ⟨0, false, [], [], []⟩
    (fun c hc => absurd hc (List.not_mem_nil c))).1

end FlashLearn
